import Mathlib

/-!
Shallow embedding of the riscv-python-model core (src/riscvmodel/types.py and
src/riscvmodel/isa.py) together with proofs about the embedded definitions.

Conventions of the embedding:
* Python unbounded integers become Int; Python `1 << n` is written `2 ^ n`.
* Python bitwise operators on Int become Int.land, Int.lor, Int.lnot and
  Int.shiftRight, all of which have the same two-is-complement semantics as
  Python (arithmetic shift, infinite sign extension).
* Mutating methods become functions returning the updated object; a method
  that can raise returns the pair of the object state at return/raise time
  and an optional exception message.
* Python indexing that would raise IndexError out of range is modelled by a
  no-op fallback; all theorems only use in-range indices.
-/

namespace riscv

/-- Immediate container (types.py, class Immediate, lines 13-131).
Fields bits, signed, lsb0 and the stored value; the derived attributes
tcmask and mask are functions of bits below. -/
structure Immediate where
  bits : Nat
  signed : Bool
  lsb0 : Bool
  value : Int
deriving DecidableEq, Repr

/-- tcmask attribute: 1 << (bits - 1) (types.py line 31). -/
def Immediate.tcmask (self : Immediate) : Int :=
  2 ^ (self.bits - 1)

/-- mask attribute: (1 << bits) - 1 (types.py line 32). -/
def Immediate.mask (self : Immediate) : Int :=
  2 ^ self.bits - 1

/-- Immediate.max (types.py lines 34-46). -/
def Immediate.max (self : Immediate) : Int :=
  let v : Int := if self.signed then 2 ^ (self.bits - 1) - 1 else 2 ^ self.bits - 1
  if self.lsb0 then v - v % 2 else v

/-- Immediate.min (types.py lines 48-57). -/
def Immediate.min (self : Immediate) : Int :=
  if self.signed then -(2 ^ (self.bits - 1) : Int) else 0

/-- Immediate.set (types.py lines 64-83).  The Python isinstance int check
cannot fail in the embedding because the argument is an Int.  Note that the
lsb0 parity test reads self.value (the previously stored value), exactly as
line 76 of the source does.  A raise returns the unchanged object together
with the message; success stores the value. -/
def Immediate.set (self : Immediate) (value : Int) : Immediate × Option String :=
  if self.lsb0 = true ∧ self.value % 2 = 1 then
    (self, some "not power of two")
  else if self.signed = false ∧ value < 0 then
    (self, some "cannot be negative")
  else if value < self.min ∨ value > self.max then
    (self, some "not in allowed range")
  else
    ({ self with value := value }, none)

/-- Immediate.set_from_bits (types.py lines 85-95):
if signed, value = -(value & tcmask) + (value & ~tcmask), then delegate
to set. -/
def Immediate.set_from_bits (self : Immediate) (value : Int) : Immediate × Option String :=
  let value := if self.signed then
      -(Int.land value self.tcmask) + Int.land value (Int.lnot self.tcmask)
    else value
  self.set value

/-- Immediate.unsigned (types.py lines 109-110): value & mask. -/
def Immediate.unsigned (self : Immediate) : Int :=
  Int.land self.value self.mask

/-- Register (types.py, class Register, lines 133-233): a fixed-width
two-is-complement cell.  The mask attribute is a function of bits below. -/
structure Register where
  bits : Nat
  immutable : Bool
  value : Int
deriving DecidableEq, Repr

/-- Register(bits) constructor (types.py lines 134-139): value 0, mutable. -/
def Register.new (bits : Nat) : Register :=
  { bits := bits, immutable := false, value := 0 }

/-- mask attribute: (1 << bits) - 1 (types.py line 139). -/
def Register.mask (self : Register) : Int :=
  2 ^ self.bits - 1

/-- Register.set_immutable (types.py lines 141-142). -/
def Register.set_immutable (self : Register) (s : Bool) : Register :=
  { self with immutable := s }

/-- Register.set (types.py lines 148-156).  The argument is the plain Int
carried by the right-hand side (Python extracts .value from a Register or
Immediate argument first, lines 149-150).  If the register is immutable the
assignment is skipped but the sign-extension normalisation still runs on the
old value, exactly as in the source. -/
def Register.set (self : Register) (value : Int) : Register :=
  let v := if self.immutable then self.value else value
  if Int.land (Int.shiftRight v (self.bits - 1)) 1 ≠ 0 then
    { self with value := Int.lor v (Int.lnot self.mask) }
  else
    { self with value := Int.land v self.mask }

/-- Register.unsigned (types.py lines 161-162): value & mask. -/
def Register.unsigned (self : Register) : Int :=
  Int.land self.value self.mask

/-- Register.__add__ (types.py lines 167-170): new Register of the same
width, set to the unbounded sum.  other is int(rhs). -/
def Register.add (self : Register) (other : Int) : Register :=
  (Register.new self.bits).set (self.value + other)

/-- Register.__sub__ (types.py lines 172-175). -/
def Register.sub (self : Register) (other : Int) : Register :=
  (Register.new self.bits).set (self.value - other)

/-- Register.__cmp__ body (types.py lines 178-180):
self.bits != other.bits or self.value != other.value.  Note this computes a
disequality flag, and Python 3 never calls a method named cmp for ==. -/
def Register.cmp (self other : Register) : Bool :=
  self.bits != other.bits || self.value != other.value

/-- Register.__and__ (types.py lines 182-190); other is the Int payload of
the right-hand side (int, Register or Immediate). -/
def Register.and (self : Register) (other : Int) : Register :=
  (Register.new self.bits).set (Int.land self.value other)

/-- Register.__or__ (types.py lines 192-200). -/
def Register.or (self : Register) (other : Int) : Register :=
  (Register.new self.bits).set (Int.lor self.value other)

/-- Register.__xor__ (types.py lines 205-213). -/
def Register.xor (self : Register) (other : Int) : Register :=
  (Register.new self.bits).set (Int.xor self.value other)

/-- Register.__lshift__ (types.py lines 215-223): Python `x << n` is
x * 2 ^ n and raises ValueError for a negative count, modelled by none. -/
def Register.lshift (self : Register) (other : Int) : Option Register :=
  if other < 0 then none
  else some ((Register.new self.bits).set (self.value * 2 ^ other.toNat))

/-- Register.__rshift__ (types.py lines 225-233): Python `x >> n` is the
arithmetic (sign-propagating) shift and raises ValueError for a negative
count, modelled by none. -/
def Register.rshift (self : Register) (other : Int) : Option Register :=
  if other < 0 then none
  else some ((Register.new self.bits).set (Int.shiftRight self.value other.toNat))

/-- RegisterFile (types.py, class RegisterFile, lines 236-271).  The update
log regs_updates holds TraceIntegerRegister(key, reg) records, which store
the plain Int reg.value (types.py line 289), so it is modelled as a list of
(index, value) pairs. -/
structure RegisterFile where
  num : Nat
  bits : Nat
  regs : List Register
  regs_updates : List (Nat × Int)
deriving DecidableEq, Repr

/-- RegisterFile(num, bits, immutable) constructor (types.py lines 237-247):
num fresh Registers, then each immutable entry (index, value) is set and
marked immutable. -/
def RegisterFile.new (num bits : Nat) (immutable : List (Nat × Int)) : RegisterFile :=
  let regs := List.replicate num (Register.new bits)
  let regs := immutable.foldl
    (fun rs r => List.modify (fun reg => (reg.set r.2).set_immutable true) r.1 rs) regs
  { num := num, bits := bits, regs := regs, regs_updates := [] }

/-- RegisterFile.__setitem__ (types.py lines 253-257): if the target is not
immutable, build a fresh Register of the file width, set it to the value and
append the (key, reg.value) record to the update log.  Writes to an
immutable target do nothing. -/
def RegisterFile.setitem (self : RegisterFile) (key : Nat) (value : Int) : RegisterFile :=
  match self.regs.get? key with
  | none => self
  | some reg =>
    if reg.immutable = false then
      { self with regs_updates :=
          self.regs_updates ++ [(key, ((Register.new self.bits).set value).value)] }
    else
      self

/-- RegisterFile.__getitem__ (types.py lines 259-260): return the committed
Register. -/
def RegisterFile.getitem (self : RegisterFile) (item : Nat) : Register :=
  (self.regs.get? item).getD (Register.new self.bits)

/-- RegisterFile.commit (types.py lines 262-265): apply the pending records
in append order via Register.set, then clear the log. -/
def RegisterFile.commit (self : RegisterFile) : RegisterFile :=
  let regs := self.regs_updates.foldl
    (fun rs t => List.modify (fun reg => reg.set t.2) t.1 rs) self.regs
  { self with regs := regs, regs_updates := [] }

/-- RegisterFile.changes (types.py lines 267-268): a copy of the pending
log, without clearing it. -/
def RegisterFile.changes (self : RegisterFile) : List (Nat × Int) :=
  self.regs_updates

/-- Modelled from the spec: the architectural State (registers, pc) consumed
by the execute methods.  The class State itself lives outside src/ (spec
section 3: pc is an integer, updated directly and not deferred; the memory
interface is not needed by the claims below). -/
structure State where
  intreg : RegisterFile
  pc : Int
deriving DecidableEq, Repr

/-- InstructionJAL.execute (isa.py lines 22-26):
intreg[rd] = pc + 4; pc = imm.  The immediate is passed as its Int value. -/
def InstructionJAL.execute (rd : Nat) (imm : Int) (model : State) : State :=
  let model := { model with intreg := model.intreg.setitem rd (model.pc + 4) }
  { model with pc := imm }

/-- InstructionBEQ.execute (isa.py lines 36-41). -/
def InstructionBEQ.execute (rs1 rs2 : Nat) (imm : Int) (model : State) : State :=
  if (model.intreg.getitem rs1).value = (model.intreg.getitem rs2).value then
    { model with pc := model.pc + imm }
  else model

/-- InstructionBNE.execute (isa.py lines 44-48). -/
def InstructionBNE.execute (rs1 rs2 : Nat) (imm : Int) (model : State) : State :=
  if (model.intreg.getitem rs1).value ≠ (model.intreg.getitem rs2).value then
    { model with pc := model.pc + imm }
  else model

/-- InstructionBLT.execute (isa.py lines 51-55): signed comparison of the
stored (sign-extended) values. -/
def InstructionBLT.execute (rs1 rs2 : Nat) (imm : Int) (model : State) : State :=
  if (model.intreg.getitem rs1).value < (model.intreg.getitem rs2).value then
    { model with pc := model.pc + imm }
  else model

/-- InstructionBGE.execute (isa.py lines 58-62). -/
def InstructionBGE.execute (rs1 rs2 : Nat) (imm : Int) (model : State) : State :=
  if (model.intreg.getitem rs1).value ≥ (model.intreg.getitem rs2).value then
    { model with pc := model.pc + imm }
  else model

/-- InstructionBLTU.execute (isa.py lines 65-69): compares unsigned(). -/
def InstructionBLTU.execute (rs1 rs2 : Nat) (imm : Int) (model : State) : State :=
  if (model.intreg.getitem rs1).unsigned < (model.intreg.getitem rs2).unsigned then
    { model with pc := model.pc + imm }
  else model

/-- InstructionBGEU.execute (isa.py lines 72-76): compares unsigned(). -/
def InstructionBGEU.execute (rs1 rs2 : Nat) (imm : Int) (model : State) : State :=
  if (model.intreg.getitem rs1).unsigned ≥ (model.intreg.getitem rs2).unsigned then
    { model with pc := model.pc + imm }
  else model

/-- InstructionSRL.execute (isa.py lines 235-238):
intreg[rd] = intreg[rs1] >> intreg[rs2], through Register.__rshift__ with a
Register right operand (whose .value is the shift count). -/
def InstructionSRL.execute (rd rs1 rs2 : Nat) (model : State) : Option State :=
  match (model.intreg.getitem rs1).rshift (model.intreg.getitem rs2).value with
  | some reg => some { model with intreg := model.intreg.setitem rd reg.value }
  | none => none

/-- InstructionSRA.execute (isa.py lines 241-244):
intreg[rd] = intreg[rs1] >> intreg[rs2], the same body as SRL. -/
def InstructionSRA.execute (rd rs1 rs2 : Nat) (model : State) : Option State :=
  match (model.intreg.getitem rs1).rshift (model.intreg.getitem rs2).value with
  | some reg => some { model with intreg := model.intreg.setitem rd reg.value }
  | none => none

/-- Specification-side formula: re-wrapping an unbounded integer into the
two-is-complement range of a given width. -/
def twosComplement (bits : Nat) (v : Int) : Int :=
  (v + 2 ^ (bits - 1)) % 2 ^ bits - 2 ^ (bits - 1)

/-- The RV32I integer register file: 32 registers of 32 bits with x0
hardwired to zero (RegisterFile(32, 32, immutable = dict 0 to 0)). -/
def rv32 : RegisterFile :=
  RegisterFile.new 32 32 [(0, 0)]


theorem nat_ldiff_eq_xor_and (a b : Nat) : Nat.ldiff a b = a ^^^ (a &&& b) := by
  apply Nat.eq_of_testBit_eq
  intro i
  rw [Nat.testBit_ldiff, Nat.testBit_xor, Nat.testBit_and]
  cases a.testBit i <;> cases b.testBit i <;> rfl

theorem int_lnot_eq (x : Int) : Int.lnot x = -(x + 1) := by
  cases x with
  | ofNat m =>
    show Int.negSucc m = -((m : Int) + 1)
    rw [Int.negSucc_eq]
  | negSucc m => simp [Int.lnot, Int.negSucc_eq]

theorem int_lnot_lnot (x : Int) : Int.lnot (Int.lnot x) = x := by
  cases x <;> rfl

theorem int_lor_eq (x y : Int) : Int.lor x y = Int.lnot (Int.land (Int.lnot x) (Int.lnot y)) := by
  cases x <;> cases y <;> rfl

theorem int_bit_emod (b : Bool) (w : Int) (n : Nat) :
    (Int.bit b w) % 2 ^ (n + 1) = Int.bit b (w % 2 ^ n) := by
  have hpos : (0 : Int) < 2 ^ n := by positivity
  have hnn : 0 ≤ w % 2 ^ n := Int.emod_nonneg w (by positivity)
  have hlt : w % 2 ^ n < 2 ^ n := Int.emod_lt_of_pos w hpos
  rw [Int.bit_val, Int.bit_val]
  have hdecomp : 2 * w + (bif b then 1 else 0) =
      (2 * (w % 2 ^ n) + (bif b then 1 else 0)) + 2 ^ (n + 1) * (w / 2 ^ n) := by
    have hw := Int.emod_add_ediv w (2 ^ n)
    rw [pow_succ]
    ring_nf
    ring_nf at hw
    nlinarith [hw]
  rw [hdecomp, Int.add_mul_emod_self_left]
  apply Int.emod_eq_of_lt
  · cases b <;> simp <;> omega
  · rw [pow_succ]
    cases b <;> simp <;> omega


theorem int_land_two_pow_sub_one : ∀ (n : Nat) (v : Int), Int.land v (2 ^ n - 1) = v % 2 ^ n := by
  intro n
  induction n with
  | zero =>
    intro v
    show Int.land v (1 - 1) = v % 1
    rw [Int.emod_one, sub_self]
    cases v with
    | ofNat m =>
      show Int.land (Int.ofNat m) (Int.ofNat 0) = 0
      show (Int.ofNat (m &&& 0)) = 0
      simp
    | negSucc m =>
      show (Int.ofNat (Nat.ldiff 0 m)) = 0
      rw [nat_ldiff_eq_xor_and]
      simp
  | succ n ih =>
    intro v
    have hmask : (2 ^ (n + 1) - 1 : Int) = Int.bit true (2 ^ n - 1) := by
      rw [Int.bit_val, pow_succ]
      norm_num
      ring
    conv_lhs => rw [← Int.bit_decomp v, hmask]
    show (Int.bit v.bodd v.div2).land (Int.bit true (2 ^ n - 1)) = v % 2 ^ (n + 1)
    rw [Int.land_bit, Bool.and_true, ih]
    conv_rhs => rw [← Int.bit_decomp v]
    rw [int_bit_emod]


theorem int_neg_add_one_emod (v : Int) (n : Nat) :
    (-(v + 1)) % 2 ^ n = 2 ^ n - 1 - v % 2 ^ n := by
  have hpos : (0 : Int) < 2 ^ n := by positivity
  have hnn : 0 ≤ v % 2 ^ n := Int.emod_nonneg v (by positivity)
  have hlt : v % 2 ^ n < 2 ^ n := Int.emod_lt_of_pos v hpos
  have hdecomp : -(v + 1) = (2 ^ n - 1 - v % 2 ^ n) + 2 ^ n * (-(v / 2 ^ n) - 1) := by
    have hw := Int.emod_add_ediv v (2 ^ n)
    ring_nf
    ring_nf at hw
    nlinarith [hw]
  rw [hdecomp, Int.add_mul_emod_self_left]
  apply Int.emod_eq_of_lt <;> omega

theorem int_lor_lnot_two_pow_sub_one (n : Nat) (v : Int) :
    Int.lor v (Int.lnot (2 ^ n - 1)) = v % 2 ^ n - 2 ^ n := by
  have hpos : (0 : Int) < 2 ^ n := by positivity
  have hnn : 0 ≤ v % 2 ^ n := Int.emod_nonneg v (by positivity)
  have hlt : v % 2 ^ n < 2 ^ n := Int.emod_lt_of_pos v hpos
  rw [int_lor_eq, int_lnot_lnot, int_land_two_pow_sub_one, int_lnot_eq, int_lnot_eq,
    int_neg_add_one_emod]
  omega

theorem nat_msb_mod (m k : Nat) : (m / 2 ^ k % 2 = 1) ↔ 2 ^ k ≤ m % 2 ^ (k + 1) := by
  have hdec : m % 2 ^ (k + 1) = m % 2 ^ k + 2 ^ k * (m / 2 ^ k % 2) := by
    rw [pow_succ, Nat.mod_mul]
  have hA : m % 2 ^ k < 2 ^ k := Nat.mod_lt _ (Nat.two_pow_pos k)
  rcases Nat.mod_two_eq_zero_or_one (m / 2 ^ k) with hr | hr <;> rw [hr] at hdec ⊢ <;> omega

theorem int_sign_test (k : Nat) (v : Int) :
    (Int.land (Int.shiftRight v k) 1 ≠ 0) ↔ 2 ^ k ≤ v % 2 ^ (k + 1) := by
  rw [show (1 : Int) = 2 ^ 1 - 1 by norm_num, int_land_two_pow_sub_one]
  cases v with
  | ofNat m =>
    show ¬((Int.ofNat (m >>> k)) % 2 ^ 1 = 0) ↔ 2 ^ k ≤ (Int.ofNat m) % 2 ^ (k + 1)
    rw [Nat.shiftRight_eq_div_pow]
    show ¬(((m / 2 ^ k : Nat) : Int) % 2 ^ 1 = 0) ↔ 2 ^ k ≤ ((m : Nat) : Int) % 2 ^ (k + 1)
    norm_cast
    have h := nat_msb_mod m k
    omega
  | negSucc m =>
    show ¬((Int.negSucc (m >>> k)) % 2 ^ 1 = 0) ↔ 2 ^ k ≤ (Int.negSucc m) % 2 ^ (k + 1)
    rw [Nat.shiftRight_eq_div_pow, Int.negSucc_eq, Int.negSucc_eq,
      int_neg_add_one_emod _ 1, int_neg_add_one_emod _ (k + 1), pow_one]
    have e1 : ((m / 2 ^ k : Nat) : Int) % 2 = ((m / 2 ^ k % 2 : Nat) : Int) := by
      push_cast
      rfl
    have e2 : ((m : Nat) : Int) % 2 ^ (k + 1) = ((m % 2 ^ (k + 1) : Nat) : Int) := by
      push_cast
      rfl
    rw [e1, e2]
    have h := nat_msb_mod m k
    have hdec : m % 2 ^ (k + 1) = m % 2 ^ k + 2 ^ k * (m / 2 ^ k % 2) := by
      rw [pow_succ, Nat.mod_mul]
    have hA : m % 2 ^ k < 2 ^ k := Nat.mod_lt _ (Nat.two_pow_pos k)
    have c1 : (2 : Int) ^ k = ((2 ^ k : Nat) : Int) := by push_cast; ring
    have c2 : (2 : Int) ^ (k + 1) = ((2 ^ (k + 1) : Nat) : Int) := by push_cast; ring
    rw [c1, c2]
    rcases Nat.mod_two_eq_zero_or_one (m / 2 ^ k) with hr | hr <;>
      rw [hr] at hdec h ⊢ <;> omega


theorem twosComplement_eq_cases (bits : Nat) (hb : 1 ≤ bits) (w : Int) :
    twosComplement bits w =
      if 2 ^ (bits - 1) ≤ w % 2 ^ bits then w % 2 ^ bits - 2 ^ bits else w % 2 ^ bits := by
  have hk : bits - 1 + 1 = bits := Nat.sub_add_cancel hb
  have hBK : (2 : Int) ^ bits = 2 * 2 ^ (bits - 1) := by
    calc (2 : Int) ^ bits = 2 ^ (bits - 1 + 1) := by rw [hk]
    _ = 2 ^ (bits - 1) * 2 := pow_succ 2 (bits - 1)
    _ = 2 * 2 ^ (bits - 1) := by ring
  have hKpos : (0 : Int) < 2 ^ (bits - 1) := by positivity
  have hBpos : (0 : Int) < 2 ^ bits := by positivity
  have hmn : 0 ≤ w % 2 ^ bits := Int.emod_nonneg w (by positivity)
  have hml : w % 2 ^ bits < 2 ^ bits := Int.emod_lt_of_pos w hBpos
  unfold twosComplement
  have h1 : (w + 2 ^ (bits - 1)) % 2 ^ bits = (w % 2 ^ bits + 2 ^ (bits - 1)) % 2 ^ bits := by
    rw [Int.add_emod, Int.emod_eq_of_lt (le_of_lt hKpos) (by omega), Int.add_emod (w % 2 ^ bits)]
  rw [h1]
  by_cases hc : 2 ^ (bits - 1) ≤ w % 2 ^ bits
  · rw [if_pos hc]
    have hrw : w % 2 ^ bits + 2 ^ (bits - 1) =
        (w % 2 ^ bits + 2 ^ (bits - 1) - 2 ^ bits) + 2 ^ bits * 1 := by ring
    rw [hrw, Int.add_mul_emod_self_left, Int.emod_eq_of_lt (by omega) (by omega)]
    ring
  · rw [if_neg hc]
    rw [Int.emod_eq_of_lt (by omega) (by omega)]
    ring

theorem register_set_eq (r : Register) (hb : 1 ≤ r.bits) (v : Int) :
    r.set v = { r with value := twosComplement r.bits (if r.immutable then r.value else v) } := by
  unfold Register.set
  have hk : r.bits - 1 + 1 = r.bits := Nat.sub_add_cancel hb
  set w := if r.immutable then r.value else v with hw
  have hcond := int_sign_test (r.bits - 1) w
  rw [hk] at hcond
  have hmask : r.mask = 2 ^ r.bits - 1 := rfl
  rw [twosComplement_eq_cases r.bits hb]
  by_cases hc : Int.land (Int.shiftRight w (r.bits - 1)) 1 ≠ 0
  · rw [if_pos hc, hmask, int_lor_lnot_two_pow_sub_one, if_pos (hcond.mp hc)]
  · rw [if_neg hc, hmask, int_land_two_pow_sub_one]
    rw [if_neg (fun hmem => hc (hcond.mpr hmem))]

theorem register_unsigned_eq (r : Register) : r.unsigned = r.value % 2 ^ r.bits := by
  unfold Register.unsigned
  have hmask : r.mask = 2 ^ r.bits - 1 := rfl
  rw [hmask, int_land_two_pow_sub_one]

theorem twosComplement_range (bits : Nat) (hb : 1 ≤ bits) (v : Int) :
    -(2 ^ (bits - 1)) ≤ twosComplement bits v ∧ twosComplement bits v < 2 ^ (bits - 1) ∧
      (twosComplement bits v - v) % 2 ^ bits = 0 := by
  have hk : bits - 1 + 1 = bits := Nat.sub_add_cancel hb
  have hBK : (2 : Int) ^ bits = 2 * 2 ^ (bits - 1) := by
    calc (2 : Int) ^ bits = 2 ^ (bits - 1 + 1) := by rw [hk]
    _ = 2 ^ (bits - 1) * 2 := pow_succ 2 (bits - 1)
    _ = 2 * 2 ^ (bits - 1) := by ring
  have hBpos : (0 : Int) < 2 ^ bits := by positivity
  have hmn : 0 ≤ (v + 2 ^ (bits - 1)) % 2 ^ bits := Int.emod_nonneg _ (by positivity)
  have hml : (v + 2 ^ (bits - 1)) % 2 ^ bits < 2 ^ bits := Int.emod_lt_of_pos _ hBpos
  refine ⟨by unfold twosComplement; omega, by unfold twosComplement; omega, ?_⟩
  have hdiv := Int.emod_add_ediv (v + 2 ^ (bits - 1)) (2 ^ bits)
  have hrw : twosComplement bits v - v = -(2 ^ bits * ((v + 2 ^ (bits - 1)) / 2 ^ bits)) := by
    unfold twosComplement
    omega
  rw [hrw, show -(2 ^ bits * ((v + 2 ^ (bits - 1)) / 2 ^ bits)) =
      2 ^ bits * (-((v + 2 ^ (bits - 1)) / 2 ^ bits)) by ring, Int.mul_emod_right]


theorem nat_and_two_pow_of_lt {r i : Nat} (h : r < 2 ^ i) : r &&& 2 ^ i = 0 := by
  apply Nat.eq_of_testBit_eq
  intro j
  rw [Nat.testBit_and, Nat.testBit_two_pow, Nat.zero_testBit]
  by_cases hij : i = j
  · subst hij
    rw [Nat.testBit_lt_two_pow h]
    simp
  · simp [hij]

theorem nat_ldiff_two_pow_of_lt {r i : Nat} (h : r < 2 ^ i) : Nat.ldiff r (2 ^ i) = r := by
  apply Nat.eq_of_testBit_eq
  intro j
  rw [Nat.testBit_ldiff, Nat.testBit_two_pow]
  by_cases hij : i = j
  · subst hij
    rw [Nat.testBit_lt_two_pow h]
    simp
  · simp [hij]

theorem nat_and_two_pow_of_ge {A i : Nat} (hA : A < 2 ^ i) :
    (2 ^ i + A) &&& 2 ^ i = 2 ^ i := by
  apply Nat.eq_of_testBit_eq
  intro j
  rw [Nat.testBit_and, Nat.testBit_two_pow]
  by_cases hij : i = j
  · subst hij
    rw [Nat.testBit_two_pow_add_eq, Nat.testBit_lt_two_pow hA]
    simp
  · simp [hij]

theorem nat_ldiff_two_pow_of_ge {A i : Nat} (hA : A < 2 ^ i) :
    Nat.ldiff (2 ^ i + A) (2 ^ i) = A := by
  apply Nat.eq_of_testBit_eq
  intro j
  rw [Nat.testBit_ldiff, Nat.testBit_two_pow]
  rcases Nat.lt_trichotomy j i with hj | hj | hj
  · rw [Nat.testBit_two_pow_add_gt hj]
    simp [Nat.ne_of_gt hj]
  · subst hj
    rw [Nat.testBit_lt_two_pow hA]
    simp
  · have h1 : 2 ^ i + A < 2 ^ j := by
      calc 2 ^ i + A < 2 ^ i + 2 ^ i := by omega
      _ = 2 ^ (i + 1) := by rw [pow_succ]; ring
      _ ≤ 2 ^ j := Nat.pow_le_pow_right (by norm_num) hj
    have h2 : A < 2 ^ j := by omega
    rw [Nat.testBit_lt_two_pow h1, Nat.testBit_lt_two_pow h2]
    simp

theorem int_land_ofNat (m t : Nat) :
    Int.land (m : Int) (t : Int) = ((m &&& t : Nat) : Int) := rfl

theorem int_land_lnot_ofNat (m t : Nat) :
    Int.land (m : Int) (Int.lnot (t : Int)) = ((Nat.ldiff m t : Nat) : Int) := rfl

/-- Value computed by the signed branch of set_from_bits on an in-range raw
pattern: r itself below the sign bit, r - 2 ^ bits at or above it. -/
theorem immediate_decode (bits : Nat) (hb : 1 ≤ bits) (r : Nat) (hr : r < 2 ^ bits) :
    -(Int.land (r : Int) (2 ^ (bits - 1))) + Int.land (r : Int) (Int.lnot (2 ^ (bits - 1))) =
      if (r : Int) < 2 ^ (bits - 1) then (r : Int) else (r : Int) - 2 ^ bits := by
  have hk : bits - 1 + 1 = bits := Nat.sub_add_cancel hb
  have hBK : (2 : Nat) ^ bits = 2 ^ (bits - 1) + 2 ^ (bits - 1) := by
    calc (2 : Nat) ^ bits = 2 ^ (bits - 1 + 1) := by rw [hk]
    _ = 2 ^ (bits - 1) * 2 := pow_succ 2 (bits - 1)
    _ = 2 ^ (bits - 1) + 2 ^ (bits - 1) := by ring
  have hc : ((2 : Int) ^ (bits - 1)) = ((2 ^ (bits - 1) : Nat) : Int) := by push_cast; ring
  have hcB : ((2 : Int) ^ bits) = ((2 ^ bits : Nat) : Int) := by push_cast; ring
  rw [hc, hcB, int_land_ofNat, int_land_lnot_ofNat]
  by_cases hlt : r < 2 ^ (bits - 1)
  · rw [nat_and_two_pow_of_lt hlt, nat_ldiff_two_pow_of_lt hlt, if_pos (by exact_mod_cast hlt)]
    simp
  · have hA : r - 2 ^ (bits - 1) < 2 ^ (bits - 1) := by omega
    have hrw : r = 2 ^ (bits - 1) + (r - 2 ^ (bits - 1)) := by omega
    rw [if_neg (by exact_mod_cast hlt)]
    conv_lhs => rw [hrw]
    rw [nat_and_two_pow_of_ge hA, nat_ldiff_two_pow_of_ge hA]
    push_cast
    omega


theorem state_if_pc (c : Prop) [Decidable c] (m : State) (p : Int) :
    ((if c then { m with pc := p } else m).pc = if c then p else m.pc) ∧
    (if c then { m with pc := p } else m).intreg = m.intreg := by
  split <;> simp

/-- C1: the claim says jal rd, imm writes rd = pc+4 and then sets pc to the
pc-relative target, so jal x1, 8 at pc=100 must give x1 = 104 and pc = 108.
Evaluating InstructionJAL.execute at that very input shows the return
address x1 = 104 is written, but the code assigns pc = imm absolutely
(isa.py line 26), so pc becomes 8, not 108: the code contradicts the
pc-relative semantics that branches in the same file and the RISC-V ISA use. -/
theorem C1_jal_return_address_and_absolute_target :
    ((InstructionJAL.execute 1 8 { intreg := rv32, pc := 100 }).intreg.commit.getitem 1).value = 104 ∧
    (InstructionJAL.execute 1 8 { intreg := rv32, pc := 100 }).pc = 8 ∧
    (InstructionJAL.execute 1 8 { intreg := rv32, pc := 100 }).pc ≠ 108 := by
  refine ⟨by decide, by decide, by decide⟩

/-- C2: the claim says that for an lsb0 immediate, set(v) raises
InvalidImmediate for every odd in-range v.  Evaluating the code at the fresh
Immediate(bits=8, unsigned, lsb0) and v = 3 (odd and within min..max) shows
set does not raise and stores 3: line 76 of types.py tests the parity of
self.value, the previously stored value, instead of the value being set. -/
theorem C2_lsb0_check_reads_stored_value :
    (3 : Int) % 2 = 1 ∧
    Immediate.min ⟨8, false, true, 0⟩ ≤ 3 ∧ (3 : Int) ≤ Immediate.max ⟨8, false, true, 0⟩ ∧
    Immediate.set ⟨8, false, true, 0⟩ 3 = (⟨8, false, true, 3⟩, none) := by
  refine ⟨by decide, by decide, by decide, by decide⟩

/-- C6: for every architectural state, the branch instructions compare per
opcode - beq/bne by equality, blt/bge by the signed stored values, bltu/bgeu
by the unsigned() values - and set pc to pc + imm exactly when the
comparison holds, leaving pc untouched otherwise and never touching the
register file. -/
theorem C6_branches_compare_per_opcode (m : State) (rs1 rs2 : Nat) (imm : Int) :
    ((InstructionBEQ.execute rs1 rs2 imm m).pc =
        (if (m.intreg.getitem rs1).value = (m.intreg.getitem rs2).value then m.pc + imm else m.pc) ∧
      (InstructionBEQ.execute rs1 rs2 imm m).intreg = m.intreg) ∧
    ((InstructionBNE.execute rs1 rs2 imm m).pc =
        (if (m.intreg.getitem rs1).value ≠ (m.intreg.getitem rs2).value then m.pc + imm else m.pc) ∧
      (InstructionBNE.execute rs1 rs2 imm m).intreg = m.intreg) ∧
    ((InstructionBLT.execute rs1 rs2 imm m).pc =
        (if (m.intreg.getitem rs1).value < (m.intreg.getitem rs2).value then m.pc + imm else m.pc) ∧
      (InstructionBLT.execute rs1 rs2 imm m).intreg = m.intreg) ∧
    ((InstructionBGE.execute rs1 rs2 imm m).pc =
        (if (m.intreg.getitem rs1).value ≥ (m.intreg.getitem rs2).value then m.pc + imm else m.pc) ∧
      (InstructionBGE.execute rs1 rs2 imm m).intreg = m.intreg) ∧
    ((InstructionBLTU.execute rs1 rs2 imm m).pc =
        (if (m.intreg.getitem rs1).unsigned < (m.intreg.getitem rs2).unsigned then m.pc + imm else m.pc) ∧
      (InstructionBLTU.execute rs1 rs2 imm m).intreg = m.intreg) ∧
    ((InstructionBGEU.execute rs1 rs2 imm m).pc =
        (if (m.intreg.getitem rs1).unsigned ≥ (m.intreg.getitem rs2).unsigned then m.pc + imm else m.pc) ∧
      (InstructionBGEU.execute rs1 rs2 imm m).intreg = m.intreg) :=
  ⟨state_if_pc _ _ _, state_if_pc _ _ _, state_if_pc _ _ _, state_if_pc _ _ _,
    state_if_pc _ _ _, state_if_pc _ _ _⟩

/-- C8: the claim says Register equality compares width and value.  The only
comparison code present, the body of the __cmp__ method, computes the
disequality flag: it returns false on two equal registers and true when
width or value differ, i.e. the inverse of an equality predicate; moreover
Python 3 never invokes __cmp__ for ==, which therefore falls back to object
identity (the source itself marks the method with a todo that it does not
work). -/
theorem C8_cmp_body_computes_disequality :
    Register.cmp ⟨32, false, 0⟩ ⟨32, false, 0⟩ = false ∧
    Register.cmp ⟨32, false, 5⟩ ⟨32, false, 5⟩ = false ∧
    Register.cmp ⟨32, false, 0⟩ ⟨16, false, 0⟩ = true ∧
    Register.cmp ⟨32, false, 0⟩ ⟨32, false, 5⟩ = true := by decide

/-- C9: a failed Immediate.set call aborts with the stored value unchanged
(every raise path returns the object as it was), and a RegisterFile write
never mutates the committed registers: it either appends exactly one
wrapped record to the pending log or, for an immutable target, appends
nothing - Register value construction inside setitem is total, so no write
can fail after a partial mutation. -/
theorem C9_no_partial_state_mutation (imm : Immediate) (v : Int) (rf : RegisterFile)
    (k : Nat) (w : Int) :
    ((imm.set v).2.isSome = true → (imm.set v).1 = imm) ∧
    (rf.setitem k w).regs = rf.regs ∧
    ((rf.setitem k w).regs_updates = rf.regs_updates ∨
      (rf.setitem k w).regs_updates =
        rf.regs_updates ++ [(k, ((Register.new rf.bits).set w).value)]) := by
  refine ⟨?_, ?_, ?_⟩
  · unfold Immediate.set
    split_ifs <;> simp
  · cases hr : rf.regs[k]? with
    | none => simp [RegisterFile.setitem, hr]
    | some reg =>
      by_cases himm : reg.immutable = false <;> simp [RegisterFile.setitem, hr, himm]
  · cases hr : rf.regs[k]? with
    | none => simp [RegisterFile.setitem, hr]
    | some reg =>
      by_cases himm : reg.immutable = false <;> simp [RegisterFile.setitem, hr, himm]

/-- C10: InstructionSRL.execute and InstructionSRA.execute have literally
the same body (isa.py lines 235-244), so on every state and operand fields
they produce identical pending register writes; the shared shift is the
arithmetic, sign-propagating one of Register.__rshift__, as the evaluation
of -2 >> 1 = -1 (not 2^31 - 1) shows. -/
theorem C10_srl_sra_observationally_equal (m : State) (rd rs1 rs2 : Nat) :
    InstructionSRL.execute rd rs1 rs2 m = InstructionSRA.execute rd rs1 rs2 m ∧
    (Register.rshift ⟨32, false, -2⟩ 1).map Register.value = some (-1) := by
  refine ⟨rfl, ?_⟩
  unfold Register.rshift
  rw [if_neg (by norm_num),
    show Int.shiftRight (Register.value ⟨32, false, -2⟩) ((1 : Int).toNat) = -1 by decide,
    register_set_eq _ (by decide)]
  decide

/-- C7: writing any value to the immutable register x0 of the RV32I file is
silently discarded: setitem on index 0 returns the file unchanged (appends
nothing to the pending log), so after any sequence of writes to index 0
followed by commit, register 0 still holds its hardwired value 0. -/
theorem C7_immutable_x0_discards_writes (ws : List Int) :
    (∀ v, rv32.setitem 0 v = rv32) ∧
    (ws.foldl (fun rf v => rf.setitem 0 v) rv32).commit.getitem 0 = rv32.getitem 0 ∧
    (rv32.getitem 0).value = 0 ∧ (rv32.getitem 0).immutable = true := by
  have h1 : ∀ v : Int, rv32.setitem 0 v = rv32 := by
    intro v
    unfold RegisterFile.setitem
    rw [show rv32.regs.get? 0 = some ⟨32, true, 0⟩ by decide]
    simp
  have h2 : ws.foldl (fun rf v => rf.setitem 0 v) rv32 = rv32 := by
    induction ws with
    | nil => rfl
    | cons w ws ih => rw [List.foldl_cons, h1 w, ih]
  rw [h2]
  exact ⟨h1, by decide, by decide, by decide⟩


theorem register_set_collapse (bits : Nat) (x y b : Int) :
    Register.set ⟨bits, false, x⟩ b = Register.set ⟨bits, false, y⟩ b := rfl

theorem register_set_bits (r : Register) (v : Int) : (r.set v).bits = r.bits := by
  unfold Register.set
  split <;> (dsimp only; split <;> rfl)

theorem register_set_immutable (r : Register) (v : Int) : (r.set v).immutable = r.immutable := by
  unfold Register.set
  split <;> (dsimp only; split <;> rfl)

theorem register_set_set (r : Register) (him : r.immutable = false) (a b : Int) :
    (r.set a).set b = r.set b := by
  obtain ⟨bits, imm, val⟩ := r
  simp only at him
  subst him
  have h1 : Register.set ⟨bits, false, val⟩ a =
      ⟨bits, false, (Register.set ⟨bits, false, val⟩ a).value⟩ := by
    conv_lhs => rw [show (Register.set ⟨bits, false, val⟩ a) =
      ⟨(Register.set ⟨bits, false, val⟩ a).bits, (Register.set ⟨bits, false, val⟩ a).immutable,
        (Register.set ⟨bits, false, val⟩ a).value⟩ from rfl]
    rw [register_set_bits, register_set_immutable]
  rw [h1, register_set_collapse bits _ val b]

/-- C3: RegisterFile writes are deferred.  For a non-immutable in-range
index and an empty log at the start of the step: a write changes no read
result; it appends exactly one (index, wrapped value) record; changes
returns the pending records without clearing them; commit applies the
records in append order, so of two writes to the same index the later one
determines the final committed register, and commit clears the log. -/
theorem C3_registerfile_deferred_writes (rf : RegisterFile) (k : Nat) (v1 v2 : Int)
    (hk : k < rf.regs.length) (him : (rf.getitem k).immutable = false)
    (hlog : rf.regs_updates = []) :
    (∀ i, (rf.setitem k v1).getitem i = rf.getitem i) ∧
    (rf.setitem k v1).changes = rf.changes ++ [(k, ((Register.new rf.bits).set v1).value)] ∧
    ((rf.setitem k v1).setitem k v2).changes =
      rf.changes ++ [(k, ((Register.new rf.bits).set v1).value),
        (k, ((Register.new rf.bits).set v2).value)] ∧
    ((rf.setitem k v1).setitem k v2).commit.regs_updates = [] ∧
    ((rf.setitem k v1).setitem k v2).commit.getitem k =
      (rf.getitem k).set ((Register.new rf.bits).set v2).value := by
  have hsome : rf.regs[k]? = some rf.regs[k] := List.getElem?_eq_getElem hk
  have hget : rf.getitem k = rf.regs[k] := by
    unfold RegisterFile.getitem
    rw [List.get?_eq_getElem?, hsome]
    rfl
  rw [hget] at him ⊢
  have hs1 : rf.setitem k v1 =
      { rf with regs_updates := rf.regs_updates ++ [(k, ((Register.new rf.bits).set v1).value)] } := by
    unfold RegisterFile.setitem
    rw [List.get?_eq_getElem?, hsome]
    simp [him]
  have hs2 : (rf.setitem k v1).setitem k v2 =
      { rf with regs_updates := rf.regs_updates ++ [(k, ((Register.new rf.bits).set v1).value),
        (k, ((Register.new rf.bits).set v2).value)] } := by
    rw [hs1]
    unfold RegisterFile.setitem
    rw [List.get?_eq_getElem?,
      show ({ rf with regs_updates := rf.regs_updates ++
        [(k, ((Register.new rf.bits).set v1).value)] } : RegisterFile).regs = rf.regs from rfl,
      hsome]
    simp [him]
  have hm1 : (List.modify (fun reg => reg.set ((Register.new rf.bits).set v1).value) k rf.regs)[k]? =
      some (rf.regs[k].set ((Register.new rf.bits).set v1).value) := by
    rw [List.getElem?_modify, hsome]
    simp
  have hm2 : (List.modify (fun reg => reg.set ((Register.new rf.bits).set v2).value) k
      (List.modify (fun reg => reg.set ((Register.new rf.bits).set v1).value) k rf.regs))[k]? =
      some ((rf.regs[k].set ((Register.new rf.bits).set v1).value).set
        ((Register.new rf.bits).set v2).value) := by
    rw [List.getElem?_modify, hm1]
    simp
  refine ⟨fun i => by rw [hs1]; rfl, by rw [hs1]; rfl, by rw [hs2]; rfl, by rw [hs2]; rfl, ?_⟩
  rw [hs2]
  unfold RegisterFile.commit RegisterFile.getitem
  rw [hlog]
  simp only [List.nil_append, List.foldl_cons, List.foldl_nil]
  rw [List.get?_eq_getElem?, hm2]
  simp only [Option.getD_some]
  rw [register_set_set _ him]


theorem register_new_set_value (bits : Nat) (hb : 1 ≤ bits) (v : Int) :
    ((Register.new bits).set v).value = twosComplement bits v := by
  rw [register_set_eq _ hb]
  rfl

/-- C4: Register arithmetic wraps.  For every width of at least one bit,
adding 1 to a register holding 2^(bits-1) - 1 yields the value
-2^(bits-1) whose unsigned() reading is 2^(bits-1); and every arithmetic or
logical operator (+ - & | ^ << >>) computes its exact unbounded result,
builds the result at the left operand width, and re-wraps it by the
two-is-complement reduction twosComplement, whose value always lies in
the signed range of the width and is congruent to the exact result. -/
theorem C4_register_arithmetic_wraps (bits : Nat) (hb : 1 ≤ bits) (x y : Int) (n : Nat) :
    ((Register.mk bits false (2 ^ (bits - 1) - 1)).add 1).value = -(2 ^ (bits - 1)) ∧
    ((Register.mk bits false (2 ^ (bits - 1) - 1)).add 1).unsigned = 2 ^ (bits - 1) ∧
    ((Register.mk bits false x).add y).bits = bits ∧
    ((Register.mk bits false x).add y).value = twosComplement bits (x + y) ∧
    ((Register.mk bits false x).sub y).value = twosComplement bits (x - y) ∧
    ((Register.mk bits false x).and y).value = twosComplement bits (Int.land x y) ∧
    ((Register.mk bits false x).or y).value = twosComplement bits (Int.lor x y) ∧
    ((Register.mk bits false x).xor y).value = twosComplement bits (Int.xor x y) ∧
    ((Register.mk bits false x).lshift (n : Int)).map Register.value =
      some (twosComplement bits (x * 2 ^ n)) ∧
    ((Register.mk bits false x).rshift (n : Int)).map Register.value =
      some (twosComplement bits (Int.shiftRight x n)) ∧
    (∀ z : Int, -(2 ^ (bits - 1)) ≤ twosComplement bits z ∧ twosComplement bits z < 2 ^ (bits - 1) ∧
      (twosComplement bits z - z) % 2 ^ bits = 0) := by
  have hnew : ∀ v : Int, ((Register.new bits).set v).value = twosComplement bits v :=
    register_new_set_value bits hb
  have hk : bits - 1 + 1 = bits := Nat.sub_add_cancel hb
  have hK : (0 : Int) < 2 ^ (bits - 1) := by positivity
  have hBK : (2 : Int) ^ bits = 2 * 2 ^ (bits - 1) := by
    calc (2 : Int) ^ bits = 2 ^ (bits - 1 + 1) := by rw [hk]
    _ = 2 ^ (bits - 1) * 2 := pow_succ 2 (bits - 1)
    _ = 2 * 2 ^ (bits - 1) := by ring
  have hmodK : (-(2 ^ (bits - 1)) : Int) % 2 ^ bits = 2 ^ (bits - 1) := by
    rw [show (-(2 ^ (bits - 1)) : Int) = 2 ^ (bits - 1) + 2 ^ bits * (-1) by rw [hBK]; ring,
      Int.add_mul_emod_self_left, Int.emod_eq_of_lt (le_of_lt hK) (by omega)]
  have htc : twosComplement bits (2 ^ (bits - 1) - 1 + 1) = -(2 ^ (bits - 1)) := by
    unfold twosComplement
    rw [show (2 ^ (bits - 1) - 1 + 1 + 2 ^ (bits - 1) : Int) = 2 ^ bits by rw [hBK]; ring,
      Int.emod_self]
    ring
  refine ⟨?_, ?_, ?_, hnew (x + y), hnew (x - y), hnew _, hnew _, hnew _, ?_, ?_,
    fun z => twosComplement_range bits hb z⟩
  · show ((Register.new bits).set (2 ^ (bits - 1) - 1 + 1)).value = -(2 ^ (bits - 1))
    rw [hnew, htc]
  · show ((Register.new bits).set (2 ^ (bits - 1) - 1 + 1)).unsigned = 2 ^ (bits - 1)
    rw [register_unsigned_eq, hnew, htc]
    show (-(2 ^ (bits - 1)) : Int) % 2 ^ ((Register.new bits).set _).bits = 2 ^ (bits - 1)
    rw [register_set_bits]
    exact hmodK
  · exact register_set_bits _ _
  · show (some ((Register.new bits).set (x * 2 ^ ((n : Int)).toNat))).map Register.value =
      some (twosComplement bits (x * 2 ^ n))
    rw [Option.map_some']
    rw [show ((n : Int)).toNat = n from Int.toNat_ofNat n, hnew]
  · show (some ((Register.new bits).set (Int.shiftRight x ((n : Int)).toNat))).map Register.value =
      some (twosComplement bits (Int.shiftRight x n))
    rw [Option.map_some']
    rw [show ((n : Int)).toNat = n from Int.toNat_ofNat n, hnew]


/-- C5 counterexample: the claim as stated quantifies over every signed
Immediate, but for the fresh signed lsb0 Immediate of width 3 and the raw
pattern r = 3 < 2^3, set_from_bits raises instead of storing the decoded
value 3 (the lsb0-rounded max is 2), leaving the stored value unchanged. -/
theorem C5_counterexample_lsb0_signed :
    ((3 : Nat) < 2 ^ 3) ∧
    (Immediate.set_from_bits ⟨3, true, true, 0⟩ 3).2.isSome = true ∧
    (Immediate.set_from_bits ⟨3, true, true, 0⟩ 3).1 = ⟨3, true, true, 0⟩ := by
  have hdec := immediate_decode 3 (by norm_num) 3 (by norm_num)
  rw [if_pos (by norm_num)] at hdec
  norm_num at hdec
  refine ⟨by norm_num, ?_, ?_⟩ <;>
  · unfold Immediate.set_from_bits Immediate.tcmask
    norm_num
    rw [hdec]
    decide

/-- C5 amended: for every Immediate with lsb0 = false and every raw pattern
r below 2^bits, set_from_bits stores, without raising: if signed, the
two-is-complement reinterpretation -(r AND tcmask) + (r AND NOT tcmask) of
r, which equals r below the sign bit and r - 2^bits at or above it; if
unsigned, r passed through unchanged. -/
theorem C5_set_from_bits_decodes (imm : Immediate) (h0 : imm.lsb0 = false) (hb : 1 ≤ imm.bits)
    (r : Nat) (hr : r < 2 ^ imm.bits) :
    (imm.signed = true → imm.set_from_bits (r : Int) =
      ({ imm with value := -(Int.land (r : Int) imm.tcmask) +
          Int.land (r : Int) (Int.lnot imm.tcmask) }, none) ∧
      -(Int.land (r : Int) imm.tcmask) + Int.land (r : Int) (Int.lnot imm.tcmask) =
        (if (r : Int) < 2 ^ (imm.bits - 1) then (r : Int) else (r : Int) - 2 ^ imm.bits)) ∧
    (imm.signed = false → imm.set_from_bits (r : Int) = ({ imm with value := (r : Int) }, none)) := by
  have hdec := immediate_decode imm.bits hb r hr
  have hk : imm.bits - 1 + 1 = imm.bits := Nat.sub_add_cancel hb
  have hK : (0 : Int) < 2 ^ (imm.bits - 1) := by positivity
  have hBK : (2 : Int) ^ imm.bits = 2 * 2 ^ (imm.bits - 1) := by
    calc (2 : Int) ^ imm.bits = 2 ^ (imm.bits - 1 + 1) := by rw [hk]
    _ = 2 ^ (imm.bits - 1) * 2 := pow_succ 2 (imm.bits - 1)
    _ = 2 * 2 ^ (imm.bits - 1) := by ring
  have hrI : (r : Int) < 2 ^ imm.bits := by
    have hc : ((2 ^ imm.bits : Nat) : Int) = (2 : Int) ^ imm.bits := by push_cast; ring
    omega
  have hr0 : (0 : Int) ≤ (r : Int) := Int.natCast_nonneg r
  have htcm : imm.tcmask = 2 ^ (imm.bits - 1) := rfl
  have hc1 : ¬(imm.lsb0 = true ∧ imm.value % 2 = 1) := by simp [h0]
  constructor
  · intro hs
    have hmin : imm.min = -(2 ^ (imm.bits - 1)) := by
      unfold Immediate.min
      rw [if_pos hs]
    have hmax : imm.max = 2 ^ (imm.bits - 1) - 1 := by
      unfold Immediate.max
      rw [if_pos hs, if_neg (by simp [h0])]
    have hdero : -(Int.land (r : Int) imm.tcmask) + Int.land (r : Int) (Int.lnot imm.tcmask) =
        if (r : Int) < 2 ^ (imm.bits - 1) then (r : Int) else (r : Int) - 2 ^ imm.bits := by
      rw [htcm]
      exact hdec
    refine ⟨?_, hdero⟩
    have hc2 : ¬(imm.signed = false ∧
        -(Int.land (r : Int) imm.tcmask) + Int.land (r : Int) (Int.lnot imm.tcmask) < 0) := by
      rw [hs]
      simp
    have hc3 : ¬(-(Int.land (r : Int) imm.tcmask) + Int.land (r : Int) (Int.lnot imm.tcmask) < imm.min ∨
        -(Int.land (r : Int) imm.tcmask) + Int.land (r : Int) (Int.lnot imm.tcmask) > imm.max) := by
      rw [hdero, hmin, hmax]
      by_cases hlt : (r : Int) < 2 ^ (imm.bits - 1)
      · omega
      · omega
    simp only [Immediate.set_from_bits, hs, reduceIte]
    unfold Immediate.set
    rw [if_neg hc1, if_neg hc2, if_neg hc3, hs]
  · intro hs
    have hmin : imm.min = 0 := by
      unfold Immediate.min
      rw [if_neg (by simp [hs])]
    have hmax : imm.max = 2 ^ imm.bits - 1 := by
      unfold Immediate.max
      rw [if_neg (by simp [h0]), if_neg (by simp [hs])]
    have hc2 : ¬(imm.signed = false ∧ (r : Int) < 0) := fun hcon => absurd hcon.2 (by omega)
    have hc3 : ¬((r : Int) < imm.min ∨ (r : Int) > imm.max) := by
      rw [hmin, hmax]
      omega
    simp only [Immediate.set_from_bits, hs, Bool.false_eq_true, reduceIte]
    unfold Immediate.set
    rw [if_neg hc1, if_neg hc2, if_neg hc3, hs]


/-- C3 witness: the deferred-write theorem applied to the RV32I register
file at index 5 with the writes 7 and -3. -/
theorem C3_registerfile_deferred_writes_witness :
    (5 < rv32.regs.length ∧ (rv32.getitem 5).immutable = false ∧ rv32.regs_updates = []) ∧
    ((∀ i, (rv32.setitem 5 7).getitem i = rv32.getitem i) ∧
      (rv32.setitem 5 7).changes = rv32.changes ++ [(5, ((Register.new rv32.bits).set 7).value)] ∧
      ((rv32.setitem 5 7).setitem 5 (-3)).changes =
        rv32.changes ++ [(5, ((Register.new rv32.bits).set 7).value),
          (5, ((Register.new rv32.bits).set (-3)).value)] ∧
      ((rv32.setitem 5 7).setitem 5 (-3)).commit.regs_updates = [] ∧
      ((rv32.setitem 5 7).setitem 5 (-3)).commit.getitem 5 =
        (rv32.getitem 5).set ((Register.new rv32.bits).set (-3)).value) :=
  ⟨⟨by decide, by decide, by decide⟩,
    C3_registerfile_deferred_writes rv32 5 7 (-3) (by decide) (by decide) (by decide)⟩

/-- C4 witness: the wrap theorem applied at width 8 with x = -5, y = 3 and
shift count 2. -/
theorem C4_register_arithmetic_wraps_witness :
    (1 ≤ 8) ∧
    (((Register.mk 8 false (2 ^ (8 - 1) - 1)).add 1).value = -(2 ^ (8 - 1)) ∧
    ((Register.mk 8 false (2 ^ (8 - 1) - 1)).add 1).unsigned = 2 ^ (8 - 1) ∧
    ((Register.mk 8 false (-5)).add 3).bits = 8 ∧
    ((Register.mk 8 false (-5)).add 3).value = twosComplement 8 (-5 + 3) ∧
    ((Register.mk 8 false (-5)).sub 3).value = twosComplement 8 (-5 - 3) ∧
    ((Register.mk 8 false (-5)).and 3).value = twosComplement 8 (Int.land (-5) 3) ∧
    ((Register.mk 8 false (-5)).or 3).value = twosComplement 8 (Int.lor (-5) 3) ∧
    ((Register.mk 8 false (-5)).xor 3).value = twosComplement 8 (Int.xor (-5) 3) ∧
    ((Register.mk 8 false (-5)).lshift ((2 : Nat) : Int)).map Register.value =
      some (twosComplement 8 (-5 * 2 ^ 2)) ∧
    ((Register.mk 8 false (-5)).rshift ((2 : Nat) : Int)).map Register.value =
      some (twosComplement 8 (Int.shiftRight (-5) 2)) ∧
    (∀ z : Int, -(2 ^ (8 - 1)) ≤ twosComplement 8 z ∧ twosComplement 8 z < 2 ^ (8 - 1) ∧
      (twosComplement 8 z - z) % 2 ^ 8 = 0)) :=
  ⟨by decide, C4_register_arithmetic_wraps 8 (by decide) (-5) 3 2⟩

/-- C5 witness: the amended decode theorem applied to the signed immediate
of width 5 without lsb0 and the raw pattern 20, whose sign bit is set. -/
theorem C5_set_from_bits_decodes_witness :
    ((Immediate.mk 5 true false 0).lsb0 = false ∧ 1 ≤ (Immediate.mk 5 true false 0).bits ∧
      20 < 2 ^ (Immediate.mk 5 true false 0).bits) ∧
    (((Immediate.mk 5 true false 0).signed = true →
      (Immediate.mk 5 true false 0).set_from_bits ((20 : Nat) : Int) =
        (({ bits := 5, signed := true, lsb0 := false, value :=
            -(Int.land ((20 : Nat) : Int) (Immediate.mk 5 true false 0).tcmask) +
            Int.land ((20 : Nat) : Int) (Int.lnot (Immediate.mk 5 true false 0).tcmask) } :
            Immediate), none) ∧
      -(Int.land ((20 : Nat) : Int) (Immediate.mk 5 true false 0).tcmask) +
          Int.land ((20 : Nat) : Int) (Int.lnot (Immediate.mk 5 true false 0).tcmask) =
        (if ((20 : Nat) : Int) < 2 ^ ((Immediate.mk 5 true false 0).bits - 1)
          then ((20 : Nat) : Int)
          else ((20 : Nat) : Int) - 2 ^ (Immediate.mk 5 true false 0).bits)) ∧
    ((Immediate.mk 5 true false 0).signed = false →
      (Immediate.mk 5 true false 0).set_from_bits ((20 : Nat) : Int) =
        (({ bits := 5, signed := true, lsb0 := false, value := ((20 : Nat) : Int) } :
            Immediate), none))) :=
  ⟨⟨by decide, by decide, by decide⟩,
    C5_set_from_bits_decodes (Immediate.mk 5 true false 0) (by decide) (by decide) 20 (by decide)⟩

end riscv
